import Mathlib

/-!
Verification development for the quart-db database layer: a shallow
embedding of its query compiler, connection fetch helpers, transaction
scope and savepoint state machine, migration engine, data loader and
state-table bootstrap, together with theorems settling the stated
properties of each component.

Conventions of the embedding:
* Query templates are pre-tokenised: a template is a list of tokens, each
  a literal SQL fragment, a named placeholder (the `:name` syntax) or a
  backend-native positional placeholder (the `$i` syntax).  Identifiers
  (placeholder names, literal fragments, savepoint names) are modelled as
  natural numbers.
* Bound values are polymorphic in the value type.
* Exceptions are `Except` results; each Python exception class is a
  constructor of an error type.
* Database effects are made explicit: functions return the issued
  commands or the new database state.
-/

/-- A token of a query template: a literal SQL fragment, a named
placeholder `:n`, or a backend-native positional placeholder `$i`
(1-indexed). -/
inductive Tok where
  | lit (s : Nat)
  | named (n : Nat)
  | pos (i : Nat)
deriving DecidableEq, Repr

/-- Errors raised by the connection layer: `undefinedParameter n` models
`UndefinedParameterError` for the missing bind name `n`, and
`multipleRows` models `MultipleRowsError`. -/
inductive QueryErr where
  | undefinedParameter (n : Nat)
  | multipleRows
deriving DecidableEq, Repr

/-- The bound values accompanying a query: absent (`None`), an ordered
sequence (`list`), or a name-to-value mapping (`dict`). -/
inductive BindValues (α : Type) where
  | vnone
  | vlist (vs : List α)
  | vdict (kvs : List (Nat × α))
deriving DecidableEq, Repr

/-- Position of the first occurrence of `n` in a list, if any. -/
def idxOf? (n : Nat) : List Nat → Option Nat
  | [] => none
  | m :: rest => if m = n then some 0 else (idxOf? n rest).map (· + 1)

/-- Modelled from the spec: the external `buildpg.render` used by the
compilers.  Walks the template; each named token is rewritten to the
backend positional syntax in first-occurrence order, reusing the index of
a name already seen, and appends the mapped value to the argument list;
a named token with no matching mapping key is a `BuildError`, surfaced by
the callers as `UndefinedParameterError` naming that key.  `seen` is the
list of names already assigned (in assignment order), `args` the
arguments collected so far. -/
def renderGo (kvs : List (Nat × α)) :
    List Tok → List Nat → List α → Except QueryErr (List Tok × List α)
  | [], _, args => .ok ([], args)
  | .named n :: rest, seen, args =>
    match idxOf? n seen with
    | some i =>
      (renderGo kvs rest seen args).map (fun r => (.pos (i + 1) :: r.1, r.2))
    | none =>
      match List.lookup n kvs with
      | none => .error (.undefinedParameter n)
      | some v =>
        (renderGo kvs rest (seen ++ [n]) (args ++ [v])).map
          (fun r => (.pos (seen.length + 1) :: r.1, r.2))
  | t :: rest, seen, args =>
    (renderGo kvs rest seen args).map (fun r => (t :: r.1, r.2))

/-- Modelled from the spec: `buildpg.render` on a template and a mapping. -/
def render (q : List Tok) (kvs : List (Nat × α)) :
    Except QueryErr (List Tok × List α) :=
  renderGo kvs q [] []

/-- The names referenced by a template, in token order, with repeats. -/
def namedOf : List Tok → List Nat
  | [] => []
  | .named n :: rest => n :: namedOf rest
  | _ :: rest => namedOf rest

/-- First occurrences of the referenced names, in order, given the names
already seen. -/
def firstOccAux : List Tok → List Nat → List Nat
  | [], _ => []
  | .named n :: rest, seen =>
    if n ∈ seen then firstOccAux rest seen
    else n :: firstOccAux rest (seen ++ [n])
  | _ :: rest, seen => firstOccAux rest seen

/-- The referenced names of a template in first-occurrence order. -/
def firstOccNames (q : List Tok) : List Nat :=
  firstOccAux q []

/-- Whether a template still contains a named placeholder. -/
def hasNamed : List Tok → Bool
  | [] => false
  | .named _ :: _ => true
  | _ :: rest => hasNamed rest

namespace Asyncpg

/-- `Connection._compile` of the asyncpg backend: a mapping is rendered;
a non-absent non-mapping value (the sequence case) is passed through with
the template unchanged; absent values give the empty argument list. -/
def compile (q : List Tok) : BindValues α → Except QueryErr (List Tok × List α)
  | .vdict kvs => render q kvs
  | .vlist vs => .ok (q, vs)
  | .vnone => .ok (q, [])

end Asyncpg

namespace Psycopg

/-- `Connection._compile` of the psycopg backend: a list is passed
through with the template unchanged; otherwise (mapping or absent) the
template is rendered against the mapping, absent values standing for the
empty mapping (the `values or` idiom). -/
def compile (q : List Tok) : BindValues α → Except QueryErr (List Tok × List α)
  | .vlist vs => .ok (q, vs)
  | .vdict kvs => render q kvs
  | .vnone => render q []

end Psycopg

namespace ConnMod

/-- `Connection._compile` of the legacy `connection.py` module: a list is
answered with the template and an EMPTY argument list (the bound sequence
is discarded); otherwise the template is rendered against the mapping,
absent values standing for the empty mapping. -/
def compile (q : List Tok) : BindValues α → Except QueryErr (List Tok × List α)
  | .vlist _ => .ok (q, [])
  | .vdict kvs => render q kvs
  | .vnone => render q []

end ConnMod

namespace Aiosqlite

/-- Outcome reported by the underlying sqlite driver for a statement. -/
inductive DriverResult where
  | ok
  | programmingError (n : Nat)
deriving DecidableEq, Repr

/-- The error translation of `Connection.execute` in the aiosqlite
backend: a driver `ProgrammingError` (an undefined-parameter condition
reported at execution time) is re-raised as `UndefinedParameterError`
with the same payload. -/
def execute (r : DriverResult) : Except QueryErr Unit :=
  match r with
  | .ok => .ok ()
  | .programmingError n => .error (.undefinedParameter n)

/-- `Connection.fetch_first` of the aiosqlite backend: the first row of
the result set, if any (`cursor.fetchone`). -/
def fetch_first (rows : List ρ) : Option ρ :=
  rows.head?

/-- `Connection.fetch_sole` of the aiosqlite backend: fetch at most two
rows (`cursor.fetchmany(2)`); more than one row raises
`MultipleRowsError`, exactly one returns it, zero returns nothing. -/
def fetch_sole (rows : List ρ) : Except QueryErr (Option ρ) :=
  let fetched := rows.take 2
  if fetched.length > 1 then .error .multipleRows
  else if fetched.length = 1 then .ok fetched.head?
  else .ok none

end Aiosqlite

namespace Psycopg

/-- `Connection.fetch_first` of the psycopg backend (`cursor.fetchone`). -/
def fetch_first (rows : List ρ) : Option ρ :=
  rows.head?

/-- `Connection.fetch_sole` of the psycopg backend: same algorithm as the
aiosqlite one (`cursor.fetchmany(2)` then the row-count checks). -/
def fetch_sole (rows : List ρ) : Except QueryErr (Option ρ) :=
  let fetched := rows.take 2
  if fetched.length > 1 then .error .multipleRows
  else if fetched.length = 1 then .ok fetched.head?
  else .ok none

end Psycopg

/-- An action a transaction object issues on its connection. -/
inductive TxAction where
  | start
  | commit
  | rollback
deriving DecidableEq, Repr

/-- Whether an `Except` result is an error, standing for the body of a
scope having raised. -/
def isError : Except ε β → Bool
  | .error _ => true
  | .ok _ => false

/-- `Transaction.__aexit__`, identical in the aiosqlite, asyncpg and
psycopg backends: roll back when `force_rollback` was requested or the
body raised, commit otherwise. -/
def aexitAction (force_rollback : Bool) (excRaised : Bool) : TxAction :=
  if force_rollback || excRaised then .rollback else .commit

/-- The `async with` protocol on a backend Transaction: `__aenter__`
calls `start()`, the body runs, `__aexit__` runs the cleanup action, and
because `__aexit__` answers None the body exception, if any, is
re-raised.  The result is the list of issued actions and the re-raised
body result. -/
def transactionScope (force_rollback : Bool) (body : Except ε β) :
    List TxAction × Except ε β :=
  ([TxAction.start, aexitAction force_rollback (isError body)], body)

namespace SqliteTx

/-- A SQL command issued by the aiosqlite Transaction on its
connection. -/
inductive Cmd where
  | beginTx
  | commitTx
  | rollbackTx
  | savepoint (n : Nat)
  | releaseSp (n : Nat)
  | rollbackToSp (n : Nat)
deriving DecidableEq, Repr

/-- The observable state of an aiosqlite Transaction driving one
connection: the drivers `in_transaction` flag, the `_savepoints` stack
(most recent first; the Python list appends and pops at its end, the
same last-in-first-out discipline), a counter supplying the fresh
savepoint names (standing for the distinct uuid4 suffixes), and the log
of issued commands. -/
structure St where
  inTransaction : Bool
  savepoints : List Nat
  nextName : Nat
  log : List Cmd
deriving DecidableEq, Repr

/-- `Transaction.start`: with a top-level transaction already open, issue
`SAVEPOINT` under a fresh name and push it; otherwise issue `BEGIN`. -/
def start (s : St) : St :=
  if s.inTransaction then
    { s with
      savepoints := s.nextName :: s.savepoints
      nextName := s.nextName + 1
      log := s.log ++ [Cmd.savepoint s.nextName] }
  else
    { s with inTransaction := true, log := s.log ++ [Cmd.beginTx] }

/-- `Transaction.commit`: with a non-empty stack, pop the top savepoint
and issue `RELEASE SAVEPOINT` on it; otherwise issue `COMMIT`, closing
the top-level transaction. -/
def commit (s : St) : St :=
  match s.savepoints with
  | n :: rest => { s with savepoints := rest, log := s.log ++ [Cmd.releaseSp n] }
  | [] => { s with inTransaction := false, log := s.log ++ [Cmd.commitTx] }

/-- `Transaction.rollback`: with a non-empty stack, pop the top savepoint
and issue `ROLLBACK TO SAVEPOINT` on it; otherwise issue `ROLLBACK`,
closing the top-level transaction. -/
def rollback (s : St) : St :=
  match s.savepoints with
  | n :: rest => { s with savepoints := rest, log := s.log ++ [Cmd.rollbackToSp n] }
  | [] => { s with inTransaction := false, log := s.log ++ [Cmd.rollbackTx] }

/-- One of the three operations of the transaction state machine. -/
inductive Op where
  | start
  | commit
  | rollback
deriving DecidableEq, Repr

/-- Apply one operation. -/
def step (s : St) : Op → St
  | .start => start s
  | .commit => commit s
  | .rollback => rollback s

/-- The state before any transaction activity on a fresh connection. -/
def init : St :=
  ⟨false, [], 0, []⟩

/-- Run a sequence of operations from the initial state. -/
def run (ops : List Op) : St :=
  ops.foldl step init

/-- Replay a command log against a savepoint stack, checking that every
savepoint close names the most recently opened still-open savepoint;
answers the residual stack, or nothing on a violation of that
last-opened-first-closed order. -/
def stackCheck : List Cmd → List Nat → Option (List Nat)
  | [], st => some st
  | Cmd.savepoint n :: rest, st => stackCheck rest (n :: st)
  | Cmd.releaseSp n :: rest, top :: st2 =>
    if top = n then stackCheck rest st2 else none
  | Cmd.releaseSp _ :: _, [] => none
  | Cmd.rollbackToSp n :: rest, top :: st2 =>
    if top = n then stackCheck rest st2 else none
  | Cmd.rollbackToSp _ :: _, [] => none
  | Cmd.beginTx :: rest, st => stackCheck rest st
  | Cmd.commitTx :: rest, st => stackCheck rest st
  | Cmd.rollbackTx :: rest, st => stackCheck rest st

end SqliteTx

/-- Whether a batch issued a driver statement, and with what: the
compiled text actually sent (the first value-sets one) and the argument
set per value-set. -/
inductive Batch (β : Type) where
  | noStatement
  | issued (q : List Tok) (argSets : List β)
deriving DecidableEq, Repr

/-- Common shape of `Connection.execute_many` in the asyncpg and psycopg
backends: an empty batch returns before any compilation or driver call;
otherwise every value-set is compiled independently (the first
compilation error propagates), only the first compiled text is reused,
and one driver call is issued with every argument list. -/
def executeManyVia (compileF : V → Except QueryErr (List Tok × List α))
    (values : List V) : Except QueryErr (Batch (List α)) :=
  if values.isEmpty then .ok .noStatement
  else do
    let compiled ← values.mapM compileF
    match compiled with
    | [] => .ok .noStatement
    | c :: _ => .ok (.issued c.1 (compiled.map Prod.snd))

namespace Asyncpg

/-- `Connection.execute_many` of the asyncpg backend. -/
def execute_many (q : List Tok) (values : List (BindValues α)) :
    Except QueryErr (Batch (List α)) :=
  executeManyVia (compile q) values

end Asyncpg

namespace Psycopg

/-- `Connection.execute_many` of the psycopg backend. -/
def execute_many (q : List Tok) (values : List (BindValues α)) :
    Except QueryErr (Batch (List α)) :=
  executeManyVia (compile q) values

end Psycopg

namespace Aiosqlite

/-- `Connection.execute_many` of the aiosqlite backend: no compilation
step; an empty batch returns before the driver `executemany` call,
otherwise one driver call is issued with the template and every
value-set. -/
def execute_many (q : List Tok) (values : List V) : Batch V :=
  if values.isEmpty then .noStatement else .issued q values

end Aiosqlite

namespace Migration

/-- `MigrationFailedError` reasons: the database is ahead of the local
migration units (message: Database is ahead of local migrations), the
validity check of the unit for a version reported false (message:
Migration ... is not valid), or the seed-data unit failed (message:
Error loading data). -/
inductive MigErr where
  | aheadOfLocal
  | invalidMigration (v : Int)
  | dataLoad
deriving DecidableEq, Repr

/-- Result of driving `_migration_generator` for one phase to the end: a
clean stop carrying the final phase version and the applied unit
versions in order (each application is followed, inside the same
committed transaction, by one state-row write of that version), a
`MigrationFailedError`, or exhaustion of the models fuel. -/
inductive Outcome where
  | stopped (final : Int) (applied : List Int)
  | failed (e : MigErr)
  | noFuel
deriving DecidableEq, Repr

/-- One phase of the migration engine: `_migration_generator` driven by
`execute_foreground_migrations`.  `units` lists the versions whose unit
file exists locally; `valid v` is the result of the optional
`valid_migration` check of unit `v` (true when the unit does not declare
one; the background driver performs no such check, so the background
phase is this function with `valid` constantly true).  Each loop turn
opens a transaction, reads the phase version, forms `next = current + 1`
and tries to load the unit file for `next`: when it is absent the run
fails as ahead-of-local if `next > 0` and the file for `next - 1` is
also absent, and otherwise stops cleanly; when it is present the unit is
applied, its validity check consulted, and the new version written. -/
def runPhase (units : List Int) (valid : Int → Bool) :
    Nat → Int → List Int → Outcome
  | 0, _, _ => .noFuel
  | fuel + 1, current, applied =>
    let next := current + 1
    if next ∈ units then
      if valid next then runPhase units valid fuel next (applied ++ [next])
      else .failed (.invalidMigration next)
    else if next > 0 ∧ (next - 1) ∉ units then .failed .aheadOfLocal
    else .stopped current applied

/-- The persisted migration state row: the two phase counters and the
seed-data flag. -/
structure StateRow where
  foreground : Int
  background : Int
  dataLoaded : Bool
deriving DecidableEq, Repr

/-- `execute_data_loader`: inside one transaction, read `data_loaded`
(under the same locking discipline as the engine); when the flag is
already set, nothing further runs; when unset, the seed units single
entry point runs (`seedOk` tells whether it succeeds): on failure a
`MigrationFailedError` about the data load is raised and the transaction
scope rolls the row back, on success `data_loaded` is set before the
commit.  The result is the state row after the scope closes, whether the
entry point was invoked, and the propagated error, if any. -/
def executeDataLoader (row : StateRow) (seedOk : Bool) :
    StateRow × Bool × Except MigErr Unit :=
  if row.dataLoaded then (row, false, .ok ())
  else if seedOk then ({ row with dataLoaded := true }, true, .ok ())
  else (row, true, .error .dataLoad)

/-- The schema-level state of the migration state table: absent, the
legacy single-counter shape holding `version`, or the current shape
holding its singleton row or not yet any row. -/
inductive TableState where
  | absent
  | legacy (version : Int)
  | current (row : Option StateRow)
deriving DecidableEq, Repr

/-- `ensure_state_table`: try to read the legacy `version` column (any
failure means the table is absent or already in the new shape, and the
seed version falls back to -1; success detects the legacy table, which
is dropped); then `CREATE TABLE IF NOT EXISTS` in the new shape; then
insert the row `(background, data_loaded, foreground) = (version, FALSE,
version)` with `ON CONFLICT DO NOTHING`, so an existing row is kept. -/
def ensureStateTable (s : TableState) : TableState :=
  let read : Int × TableState :=
    match s with
    | .legacy v => (v, .absent)
    | .absent => (-1, .absent)
    | .current r => (-1, .current r)
  let created : Int × TableState :=
    match read with
    | (v, .absent) => (v, .current none)
    | t => t
  match created with
  | (v, .current none) => .current (some ⟨v, v, false⟩)
  | (_, t) => t

end Migration

section HelperLemmas

theorem idxOf_eq_none_iff (n : Nat) :
    ∀ seen : List Nat, idxOf? n seen = none ↔ n ∉ seen := by
  intro seen
  induction seen with
  | nil => simp [idxOf?]
  | cons m rest ih =>
    by_cases hm : m = n
    · subst hm
      simp [idxOf?]
    · simp only [idxOf?, hm, if_false, Option.map_eq_none', ih, List.mem_cons,
        not_or]
      constructor
      · intro h
        exact ⟨fun he => hm he.symm, h⟩
      · intro h
        exact h.2

theorem idxOf_isSome_of_mem {n : Nat} {seen : List Nat} (h : n ∈ seen) :
    ∃ i, idxOf? n seen = some i := by
  rcases ho : idxOf? n seen with _ | i
  · exact absurd h ((idxOf_eq_none_iff n seen).mp ho)
  · exact ⟨i, rfl⟩

theorem renderGo_no_named (kvs : List (Nat × α)) :
    ∀ (toks : List Tok) (seen : List Nat) (args : List α),
      hasNamed toks = false → renderGo kvs toks seen args = .ok (toks, args) := by
  intro toks
  induction toks with
  | nil => intro seen args _; simp [renderGo]
  | cons t rest ih =>
    intro seen args h
    cases t with
    | named n => simp [hasNamed] at h
    | lit s =>
      simp only [hasNamed] at h
      simp [renderGo, ih seen args h, Except.map]
    | pos i =>
      simp only [hasNamed] at h
      simp [renderGo, ih seen args h, Except.map]

end HelperLemmas

theorem renderGo_ok (kvs : List (Nat × α)) :
    ∀ (toks : List Tok) (seen : List Nat) (args : List α),
      (∀ n ∈ namedOf toks, n ∈ seen ∨ (List.lookup n kvs).isSome = true) →
      ∃ out, renderGo kvs toks seen args =
          .ok (out, args ++ (firstOccAux toks seen).filterMap
            (fun n => List.lookup n kvs)) ∧
        hasNamed out = false := by
  intro toks
  induction toks with
  | nil =>
    intro seen args _
    exact ⟨[], by simp [renderGo, firstOccAux, hasNamed]⟩
  | cons t rest ih =>
    intro seen args h
    cases t with
    | lit s =>
      obtain ⟨out, hout, hnn⟩ := ih seen args (fun n hn => h n (by simpa [namedOf] using hn))
      exact ⟨Tok.lit s :: out, by simp [renderGo, hout, firstOccAux, Except.map, hasNamed, hnn]⟩
    | pos i =>
      obtain ⟨out, hout, hnn⟩ := ih seen args (fun n hn => h n (by simpa [namedOf] using hn))
      exact ⟨Tok.pos i :: out, by simp [renderGo, hout, firstOccAux, Except.map, hasNamed, hnn]⟩
    | named n =>
      by_cases hmem : n ∈ seen
      · obtain ⟨i, hi⟩ := idxOf_isSome_of_mem hmem
        obtain ⟨out, hout, hnn⟩ := ih seen args (fun m hm => h m (by simp [namedOf, hm]))
        refine ⟨Tok.pos (i + 1) :: out, ?_, by simp [hasNamed, hnn]⟩
        simp [renderGo, hi, hout, Except.map, firstOccAux, hmem]
      · have hlk : (List.lookup n kvs).isSome = true := by
          rcases h n (by simp [namedOf]) with hc | hc
          · exact absurd hc hmem
          · exact hc
        rcases hv : List.lookup n kvs with _ | v
        · rw [hv] at hlk; simp at hlk
        · have hnone : idxOf? n seen = none := (idxOf_eq_none_iff n seen).mpr hmem
          obtain ⟨out, hout, hnn⟩ := ih (seen ++ [n]) (args ++ [v])
            (fun m hm => by
              rcases h m (by simp [namedOf, hm]) with hc | hc
              · exact Or.inl (by simp [hc])
              · exact Or.inr hc)
          refine ⟨Tok.pos (seen.length + 1) :: out, ?_, by simp [hasNamed, hnn]⟩
          simp only [renderGo, hnone, hv, hout, Except.map, firstOccAux, hmem,
            if_false, List.filterMap_cons, List.append_assoc]
          simp [hv]

theorem renderGo_missing (kvs : List (Nat × α)) :
    ∀ (toks : List Tok) (seen : List Nat) (args : List α) (m : Nat),
      (∀ n ∈ seen, (List.lookup n kvs).isSome = true) →
      (namedOf toks).find? (fun n => (List.lookup n kvs).isNone) = some m →
      renderGo kvs toks seen args = .error (.undefinedParameter m) := by
  intro toks
  induction toks with
  | nil =>
    intro seen args m _ hfind
    simp [namedOf, List.find?] at hfind
  | cons t rest ih =>
    intro seen args m hseen hfind
    cases t with
    | lit s =>
      simp only [namedOf] at hfind
      simp [renderGo, ih seen args m hseen hfind, Except.map]
    | pos i =>
      simp only [namedOf] at hfind
      simp [renderGo, ih seen args m hseen hfind, Except.map]
    | named n =>
      simp only [namedOf, List.find?] at hfind
      rcases hv : List.lookup n kvs with _ | v
      · rw [hv] at hfind
        simp at hfind
        subst hfind
        have hmem : n ∉ seen := fun hc => by
          have := hseen n hc
          rw [hv] at this
          simp at this
        have hnone : idxOf? n seen = none := (idxOf_eq_none_iff n seen).mpr hmem
        simp [renderGo, hnone, hv]
      · rw [hv] at hfind
        simp only [Option.isNone_some, Bool.false_eq_true, if_false] at hfind
        rcases hio : idxOf? n seen with _ | i
        · have hrec := ih (seen ++ [n]) (args ++ [v]) m
            (fun x hx => by
              rcases List.mem_append.mp hx with hx2 | hx2
              · exact hseen x hx2
              · simp only [List.mem_singleton] at hx2
                subst hx2
                rw [hv]
                rfl)
            hfind
          simp [renderGo, hio, hv, hrec, Except.map]
        · simp [renderGo, hio, ih seen args m hseen hfind, Except.map]

theorem runPhase_stopped_cond (units : List Int) (valid : Int → Bool) :
    ∀ (fuel : Nat) (current : Int) (applied appliedOut : List Int) (final : Int),
      Migration.runPhase units valid fuel current applied =
        .stopped final appliedOut →
      (final + 1) ∉ units ∧ ¬(final + 1 > 0 ∧ final ∉ units) := by
  intro fuel
  induction fuel with
  | zero =>
    intro current applied appliedOut final h
    simp [Migration.runPhase] at h
  | succ k ih =>
    intro current applied appliedOut final h
    simp only [Migration.runPhase] at h
    by_cases h1 : (current + 1) ∈ units
    · rw [if_pos h1] at h
      by_cases h2 : valid (current + 1) = true
      · rw [if_pos h2] at h
        exact ih _ _ _ _ h
      · rw [if_neg h2] at h
        cases h
    · rw [if_neg h1] at h
      by_cases h3 : current + 1 > 0 ∧ (current + 1 - 1) ∉ units
      · rw [if_pos h3] at h
        cases h
      · rw [if_neg h3] at h
        injection h with hf ha
        subst hf
        refine ⟨h1, fun hc => h3 ⟨hc.1, ?_⟩⟩
        have hsub : current + 1 - 1 = current := by ring
        rw [hsub]
        exact hc.2

def SqliteTx.WF (s : SqliteTx.St) : Prop :=
  ∀ n ∈ s.savepoints, n < s.nextName

theorem stackCheck_append_of (l2 : List SqliteTx.Cmd) :
    ∀ (l1 : List SqliteTx.Cmd) (st st2 : List Nat),
      SqliteTx.stackCheck l1 st = some st2 →
      SqliteTx.stackCheck (l1 ++ l2) st = SqliteTx.stackCheck l2 st2 := by
  intro l1
  induction l1 with
  | nil =>
    intro st st2 h
    simp only [SqliteTx.stackCheck, Option.some_inj] at h
    subst h
    simp
  | cons c rest ih =>
    intro st st2 h
    cases c with
    | beginTx =>
      simp only [SqliteTx.stackCheck] at h
      simpa only [List.cons_append, SqliteTx.stackCheck] using ih st st2 h
    | commitTx =>
      simp only [SqliteTx.stackCheck] at h
      simpa only [List.cons_append, SqliteTx.stackCheck] using ih st st2 h
    | rollbackTx =>
      simp only [SqliteTx.stackCheck] at h
      simpa only [List.cons_append, SqliteTx.stackCheck] using ih st st2 h
    | savepoint n =>
      simp only [SqliteTx.stackCheck] at h
      simpa only [List.cons_append, SqliteTx.stackCheck] using ih (n :: st) st2 h
    | releaseSp n =>
      cases st with
      | nil => simp [SqliteTx.stackCheck] at h
      | cons top st3 =>
        simp only [SqliteTx.stackCheck] at h
        by_cases htop : top = n
        · rw [if_pos htop] at h
          simp only [List.cons_append, SqliteTx.stackCheck, if_pos htop]
          exact ih st3 st2 h
        · rw [if_neg htop] at h
          cases h
    | rollbackToSp n =>
      cases st with
      | nil => simp [SqliteTx.stackCheck] at h
      | cons top st3 =>
        simp only [SqliteTx.stackCheck] at h
        by_cases htop : top = n
        · rw [if_pos htop] at h
          simp only [List.cons_append, SqliteTx.stackCheck, if_pos htop]
          exact ih st3 st2 h
        · rw [if_neg htop] at h
          cases h

theorem step_stackCheck (s : SqliteTx.St) (op : SqliteTx.Op)
    (h : SqliteTx.stackCheck s.log [] = some s.savepoints) :
    SqliteTx.stackCheck (SqliteTx.step s op).log [] =
      some (SqliteTx.step s op).savepoints := by
  cases op with
  | start =>
    simp only [SqliteTx.step, SqliteTx.start]
    by_cases hin : s.inTransaction
    · rw [if_pos hin]
      simp only
      rw [stackCheck_append_of _ s.log [] s.savepoints h]
      simp [SqliteTx.stackCheck]
    · rw [if_neg hin]
      simp only
      rw [stackCheck_append_of _ s.log [] s.savepoints h]
      simp [SqliteTx.stackCheck]
  | commit =>
    simp only [SqliteTx.step, SqliteTx.commit]
    cases hsp : s.savepoints with
    | nil =>
      simp only
      rw [stackCheck_append_of _ s.log [] s.savepoints h, hsp]
      simp [SqliteTx.stackCheck]
    | cons top rest =>
      simp only
      rw [stackCheck_append_of _ s.log [] s.savepoints h, hsp]
      simp [SqliteTx.stackCheck]
  | rollback =>
    simp only [SqliteTx.step, SqliteTx.rollback]
    cases hsp : s.savepoints with
    | nil =>
      simp only
      rw [stackCheck_append_of _ s.log [] s.savepoints h, hsp]
      simp [SqliteTx.stackCheck]
    | cons top rest =>
      simp only
      rw [stackCheck_append_of _ s.log [] s.savepoints h, hsp]
      simp [SqliteTx.stackCheck]

theorem foldl_stackCheck :
    ∀ (ops : List SqliteTx.Op) (s : SqliteTx.St),
      SqliteTx.stackCheck s.log [] = some s.savepoints →
      SqliteTx.stackCheck (ops.foldl SqliteTx.step s).log [] =
        some (ops.foldl SqliteTx.step s).savepoints := by
  intro ops
  induction ops with
  | nil => intro s h; simpa
  | cons op rest ih =>
    intro s h
    exact ih (SqliteTx.step s op) (step_stackCheck s op h)

theorem step_WF (s : SqliteTx.St) (op : SqliteTx.Op) (h : SqliteTx.WF s) :
    SqliteTx.WF (SqliteTx.step s op) := by
  cases op with
  | start =>
    simp only [SqliteTx.step, SqliteTx.start]
    by_cases hin : s.inTransaction
    · rw [if_pos hin]
      intro n hn
      simp only at hn ⊢
      rcases List.mem_cons.mp hn with h1 | h1
      · subst h1
        exact Nat.lt_succ_self _
      · exact Nat.lt_succ_of_lt (h n h1)
    · rw [if_neg hin]
      exact h
  | commit =>
    simp only [SqliteTx.step, SqliteTx.commit]
    cases hsp : s.savepoints with
    | nil =>
      intro n hn
      simp only at hn ⊢
      exact absurd hn (List.not_mem_nil n)
    | cons top rest =>
      intro n hn
      simp only at hn ⊢
      exact h n (by rw [hsp]; exact List.mem_cons_of_mem _ hn)
  | rollback =>
    simp only [SqliteTx.step, SqliteTx.rollback]
    cases hsp : s.savepoints with
    | nil =>
      intro n hn
      simp only at hn ⊢
      exact absurd hn (List.not_mem_nil n)
    | cons top rest =>
      intro n hn
      simp only at hn ⊢
      exact h n (by rw [hsp]; exact List.mem_cons_of_mem _ hn)

theorem foldl_WF :
    ∀ (ops : List SqliteTx.Op) (s : SqliteTx.St),
      SqliteTx.WF s → SqliteTx.WF (ops.foldl SqliteTx.step s) := by
  intro ops
  induction ops with
  | nil => intro s h; simpa
  | cons op rest ih => intro s h; exact ih (SqliteTx.step s op) (step_WF s op h)

/-- C5: `fetch_first` answers none for zero matching rows and the first
row for one or more; `fetch_sole` answers none for zero rows, the row
for exactly one, and `MultipleRowsError` for two or more — in the
aiosqlite and psycopg backends. -/
theorem fetch_first_sole_spec {ρ : Type} : ∀ rows : List ρ,
    (rows = [] →
      Aiosqlite.fetch_first rows = none ∧
      Aiosqlite.fetch_sole rows = .ok none ∧
      Psycopg.fetch_first rows = none ∧
      Psycopg.fetch_sole rows = .ok none) ∧
    (∀ r rest, rows = r :: rest →
      Aiosqlite.fetch_first rows = some r ∧ Psycopg.fetch_first rows = some r) ∧
    (∀ r, rows = [r] →
      Aiosqlite.fetch_sole rows = .ok (some r) ∧
      Psycopg.fetch_sole rows = .ok (some r)) ∧
    (∀ r r2 rest, rows = r :: r2 :: rest →
      Aiosqlite.fetch_sole rows = .error .multipleRows ∧
      Psycopg.fetch_sole rows = .error .multipleRows) := by
  intro rows
  refine ⟨?_, ?_, ?_, ?_⟩
  · rintro rfl
    exact ⟨rfl, rfl, rfl, rfl⟩
  · rintro r rest rfl
    exact ⟨rfl, rfl⟩
  · rintro r rfl
    exact ⟨rfl, rfl⟩
  · rintro r r2 rest rfl
    exact ⟨rfl, rfl⟩

theorem fetch_first_sole_spec_witness :
    Aiosqlite.fetch_sole [(3 : Nat), 4] = .error .multipleRows ∧
    Psycopg.fetch_sole [(3 : Nat), 4] = .error .multipleRows :=
  (fetch_first_sole_spec [(3 : Nat), 4]).2.2.2 3 4 [] rfl

/-- C10: `execute_many` with an empty list of value-sets returns at once,
before any compilation (the result holds for every compile function) and
before any driver statement, in the asyncpg, psycopg and aiosqlite
backends. -/
theorem execute_many_empty_noop {α V : Type} :
    ∀ (compileF : V → Except QueryErr (List Tok × List α)) (q : List Tok),
      executeManyVia compileF [] = .ok .noStatement ∧
      Asyncpg.execute_many q ([] : List (BindValues α)) = .ok .noStatement ∧
      Psycopg.execute_many q ([] : List (BindValues α)) = .ok .noStatement ∧
      Aiosqlite.execute_many q ([] : List V) = .noStatement :=
  fun _ _ => ⟨rfl, rfl, rfl, rfl⟩

/-- C3: a transaction scope starts with `start()`, performs exactly one
cleanup action on exit — `rollback()` precisely when the body raised or
`force_rollback` was requested, `commit()` otherwise — and re-raises the
body result. -/
theorem transaction_scope_spec {ε β : Type} :
    ∀ (force : Bool) (body : Except ε β),
      (transactionScope force body).1 =
        [TxAction.start, aexitAction force (isError body)] ∧
      (transactionScope force body).2 = body ∧
      (aexitAction force (isError body) = .rollback ↔
        (force = true ∨ isError body = true)) ∧
      (aexitAction force (isError body) = .commit ↔
        (force = false ∧ isError body = false)) ∧
      ((transactionScope force body).1.count TxAction.rollback +
        (transactionScope force body).1.count TxAction.commit = 1) := by
  intro force body
  refine ⟨rfl, rfl, ?_, ?_, ?_⟩ <;>
    cases force <;> cases body <;>
      simp [aexitAction, isError, transactionScope]

/-- C8: the state-table bootstrap is idempotent, always leaves the table
in the new shape holding exactly its singleton row, seeds `(-1, -1,
false)` when starting from nothing, seeds both counters from the legacy
`version` value when the legacy table is detected, and keeps an existing
row untouched. -/
theorem ensure_state_table_spec :
    (∀ s, Migration.ensureStateTable (Migration.ensureStateTable s) =
      Migration.ensureStateTable s) ∧
    (∀ s, ∃ row, Migration.ensureStateTable s = .current (some row)) ∧
    (Migration.ensureStateTable .absent = .current (some ⟨-1, -1, false⟩)) ∧
    (∀ v, Migration.ensureStateTable (.legacy v) =
      .current (some ⟨v, v, false⟩)) ∧
    (∀ row, Migration.ensureStateTable (.current (some row)) =
      .current (some row)) := by
  refine ⟨?_, ?_, rfl, fun v => rfl, fun row => rfl⟩
  · rintro (_ | v | (_ | row)) <;> rfl
  · rintro (_ | v | (_ | row))
    · exact ⟨_, rfl⟩
    · exact ⟨_, rfl⟩
    · exact ⟨_, rfl⟩
    · exact ⟨_, rfl⟩

/-- C7: the data loader does nothing when `data_loaded` is already set;
otherwise it invokes the seed units entry point, setting the flag before
the commit on success, while on failure it raises the data-load
`MigrationFailedError` and the enclosing transaction rolls back, leaving
the flag unset so the load is retryable. -/
theorem data_loader_spec :
    ∀ (row : Migration.StateRow) (seedOk : Bool),
      (row.dataLoaded = true →
        Migration.executeDataLoader row seedOk = (row, false, .ok ())) ∧
      (row.dataLoaded = false → seedOk = true →
        Migration.executeDataLoader row seedOk =
          ({ row with dataLoaded := true }, true, .ok ())) ∧
      (row.dataLoaded = false → seedOk = false →
        Migration.executeDataLoader row seedOk =
          (row, true, .error .dataLoad) ∧
        (Migration.executeDataLoader row seedOk).1.dataLoaded = false) := by
  intro row seedOk
  refine ⟨?_, ?_, ?_⟩
  · intro h
    simp [Migration.executeDataLoader, h]
  · intro h1 h2
    simp [Migration.executeDataLoader, h1, h2]
  · intro h1 h2
    constructor <;> simp [Migration.executeDataLoader, h1, h2]

theorem data_loader_spec_witness :
    Migration.executeDataLoader ⟨0, 0, false⟩ false =
      (⟨0, 0, false⟩, true, .error .dataLoad) :=
  ((data_loader_spec ⟨0, 0, false⟩ false).2.2 rfl rfl).1

/-- C2 counterexample: at the concrete template `$1` with bound sequence
`[42]`, the legacy `connection.py` compiler answers the empty argument
list, not the given sequence; and at the template `:3` with absent
values, the psycopg compiler raises `UndefinedParameterError` instead of
returning the template unchanged with the empty argument list. -/
theorem compile_sequence_counterexample :
    ConnMod.compile [Tok.pos 1] (BindValues.vlist [(42 : Nat)]) =
      .ok ([Tok.pos 1], []) ∧
    ConnMod.compile [Tok.pos 1] (BindValues.vlist [(42 : Nat)]) ≠
      .ok ([Tok.pos 1], [42]) ∧
    Psycopg.compile (α := Nat) [Tok.named 3] .vnone =
      .error (.undefinedParameter 3) ∧
    Psycopg.compile (α := Nat) [Tok.named 3] .vnone ≠
      .ok ([Tok.named 3], []) := by
  refine ⟨rfl, ?_, rfl, ?_⟩
  · intro h
    simp [ConnMod.compile] at h
  · intro h
    exact Except.noConfusion h

/-- C2 as amended: for sequence or absent bound values the asyncpg
compiler returns the template unchanged with the given sequence (or the
empty list) — no value dropped; the psycopg compiler does so for
sequences, but routes absent values through the named-token rewriter, so
the template passes through unchanged only when it has no named token;
the legacy `connection.py` compiler discards a bound sequence, answering
the empty argument list, and routes absent values through the rewriter
likewise. -/
theorem compile_sequence_spec {α : Type} :
    ∀ (q : List Tok) (vs : List α),
      Asyncpg.compile q (.vlist vs) = .ok (q, vs) ∧
      Asyncpg.compile q (.vnone : BindValues α) = .ok (q, []) ∧
      Psycopg.compile q (.vlist vs) = .ok (q, vs) ∧
      Psycopg.compile q (.vnone : BindValues α) = render q [] ∧
      (hasNamed q = false →
        Psycopg.compile q (.vnone : BindValues α) = .ok (q, [])) ∧
      ConnMod.compile q (.vlist vs) = .ok (q, []) ∧
      ConnMod.compile q (.vnone : BindValues α) = render q [] ∧
      (hasNamed q = false →
        ConnMod.compile q (.vnone : BindValues α) = .ok (q, [])) := by
  intro q vs
  refine ⟨rfl, rfl, rfl, rfl, ?_, rfl, rfl, ?_⟩ <;>
    exact fun h => renderGo_no_named [] q [] [] h

theorem compile_sequence_spec_witness :
    Psycopg.compile [Tok.lit 7, Tok.pos 1] (.vnone : BindValues Nat) =
      .ok ([Tok.lit 7, Tok.pos 1], []) :=
  ((compile_sequence_spec [Tok.lit 7, Tok.pos 1] ([] : List Nat)).2.2.2.2).1 rfl

/-- C9: compiling a template of named tokens against a mapping that
holds every referenced name succeeds, yielding a purely positional
template and the arguments ordered by the first occurrence of each name;
when the first referenced name missing from the mapping exists, the
compile raises `UndefinedParameterError` naming it; and the aiosqlite
backend re-raises a driver-reported undefined-parameter condition as the
same error kind. -/
theorem compile_mapping_spec {α : Type} :
    ∀ (q : List Tok) (kvs : List (Nat × α)),
      ((∀ n ∈ namedOf q, (List.lookup n kvs).isSome = true) →
        ∃ out, Asyncpg.compile q (.vdict kvs) =
            .ok (out, (firstOccNames q).filterMap (fun n => List.lookup n kvs)) ∧
          hasNamed out = false) ∧
      (∀ m, (namedOf q).find? (fun n => (List.lookup n kvs).isNone) = some m →
        Asyncpg.compile q (.vdict kvs) = .error (.undefinedParameter m)) ∧
      (∀ j, Aiosqlite.execute (.programmingError j) =
        .error (.undefinedParameter j)) := by
  intro q kvs
  refine ⟨?_, ?_, fun j => rfl⟩
  · intro h
    obtain ⟨out, hout, hnn⟩ := renderGo_ok kvs q [] []
      (fun n hn => Or.inr (h n hn))
    refine ⟨out, ?_, hnn⟩
    simpa [Asyncpg.compile, render, firstOccNames] using hout
  · intro m hm
    exact renderGo_missing kvs q [] [] m (by simp) hm

theorem compile_mapping_spec_witness :
    (∃ out, Asyncpg.compile [Tok.named 5, Tok.lit 9, Tok.named 5, Tok.named 7]
        (BindValues.vdict [(5, (11 : Nat)), (7, 13)]) =
        .ok (out,
          (firstOccNames
            [Tok.named 5, Tok.lit 9, Tok.named 5, Tok.named 7]).filterMap
            (fun n => List.lookup n [(5, (11 : Nat)), (7, 13)])) ∧
      hasNamed out = false) ∧
    Asyncpg.compile [Tok.named 5, Tok.named 7]
        (BindValues.vdict [(5, (11 : Nat))]) =
      .error (.undefinedParameter 7) :=
  ⟨(compile_mapping_spec _ _).1 (by decide),
    (compile_mapping_spec _ _).2.1 7 (by decide)⟩

/-- C1: whenever a phase of the migration engine runs from a version at
or past every locally available unit (the database is ahead of the local
migrations), it fails with the ahead-of-local `MigrationFailedError`; in
the particular scene of the spec — the unit for version 2 present, those
for 1 and 0 absent, the phase counter at 0 — it fails the same way; and
a silent stop happens only at a final version whose successor unit is
absent, that is, when no further unit is there to apply. -/
theorem migration_ahead_spec :
    (∀ (units : List Int) (valid : Int → Bool) (fuel : Nat) (current : Int),
      0 < fuel → 0 ≤ current → (∀ u ∈ units, u < current) →
      Migration.runPhase units valid fuel current [] = .failed .aheadOfLocal) ∧
    (Migration.runPhase [2] (fun _ => true) 3 0 [] = .failed .aheadOfLocal) ∧
    (∀ (units : List Int) (valid : Int → Bool) (fuel : Nat)
        (current final : Int) (applied appliedOut : List Int),
      Migration.runPhase units valid fuel current applied =
        .stopped final appliedOut →
      (final + 1) ∉ units) := by
  refine ⟨?_, by decide, ?_⟩
  · intro units valid fuel current hf hc hu
    cases fuel with
    | zero => omega
    | succ k =>
      have h1 : (current + 1) ∉ units := fun hmem => by
        have := hu _ hmem
        omega
      have h2 : current + 1 > 0 ∧ (current + 1 - 1) ∉ units := by
        refine ⟨by omega, fun hmem => ?_⟩
        have := hu _ hmem
        omega
      simp only [Migration.runPhase]
      rw [if_neg h1, if_pos h2]
  · intro units valid fuel current final applied appliedOut h
    exact
      (runPhase_stopped_cond units valid fuel current applied appliedOut final h).1

theorem migration_ahead_spec_witness :
    Migration.runPhase [0] (fun _ => true) 1 5 [] = .failed .aheadOfLocal :=
  migration_ahead_spec.1 [0] (fun _ => true) 1 5 (by decide) (by decide)
    (by decide)

/-- C6: a second engine run over the same fixed unit set mutates
nothing: from the final version of any cleanly stopped run, the engine
reads the counter, finds the unit for the next version absent while the
stop conditions still hold, and stops at once, applying no unit and
writing no state row. -/
theorem migration_second_run_noop :
    ∀ (units : List Int) (valid : Int → Bool) (fuel fuel2 : Nat)
      (current final : Int) (applied : List Int),
      Migration.runPhase units valid fuel current [] = .stopped final applied →
      0 < fuel2 →
      Migration.runPhase units valid fuel2 final [] = .stopped final [] := by
  intro units valid fuel fuel2 current final applied h hf
  obtain ⟨h1, h2⟩ :=
    runPhase_stopped_cond units valid fuel current [] applied final h
  cases fuel2 with
  | zero => omega
  | succ k =>
    have h3 : ¬(final + 1 > 0 ∧ (final + 1 - 1) ∉ units) := by
      have he : final + 1 - 1 = final := by ring
      rw [he]
      exact h2
    simp only [Migration.runPhase]
    rw [if_neg h1, if_neg h3]

theorem migration_second_run_noop_witness :
    Migration.runPhase [0, 1] (fun _ => true) 1 1 [] = .stopped 1 [] :=
  migration_second_run_noop [0, 1] (fun _ => true) 3 1 (-1) 1 [0, 1]
    (by decide) (by decide)

/-- C4: the aiosqlite nested-transaction state machine — `start()`
pushes a fresh, unused savepoint name when a top-level transaction is
open and begins the top-level transaction otherwise; `commit()` releases
and pops the most recently pushed savepoint when the stack is non-empty
and commits the top-level transaction otherwise; `rollback()` rolls back
to and pops the most recent savepoint when the stack is non-empty and
rolls the top-level transaction back otherwise; and over every operation
sequence the issued command log closes savepoints in strict
last-opened-first-closed order (the replayed stack matches the machine
stack). -/
theorem sqlite_tx_spec :
    (∀ s : SqliteTx.St, SqliteTx.WF s →
      (s.inTransaction = true →
        SqliteTx.start s =
          { s with
            savepoints := s.nextName :: s.savepoints
            nextName := s.nextName + 1
            log := s.log ++ [SqliteTx.Cmd.savepoint s.nextName] } ∧
        s.nextName ∉ s.savepoints) ∧
      (s.inTransaction = false →
        SqliteTx.start s =
          { s with
            inTransaction := true
            log := s.log ++ [SqliteTx.Cmd.beginTx] }) ∧
      (∀ top rest, s.savepoints = top :: rest →
        SqliteTx.commit s =
          { s with
            savepoints := rest
            log := s.log ++ [SqliteTx.Cmd.releaseSp top] } ∧
        SqliteTx.rollback s =
          { s with
            savepoints := rest
            log := s.log ++ [SqliteTx.Cmd.rollbackToSp top] }) ∧
      (s.savepoints = [] →
        SqliteTx.commit s =
          { s with
            inTransaction := false
            log := s.log ++ [SqliteTx.Cmd.commitTx] } ∧
        SqliteTx.rollback s =
          { s with
            inTransaction := false
            log := s.log ++ [SqliteTx.Cmd.rollbackTx] })) ∧
    (∀ ops : List SqliteTx.Op, SqliteTx.WF (SqliteTx.run ops)) ∧
    (∀ ops : List SqliteTx.Op,
      SqliteTx.stackCheck (SqliteTx.run ops).log [] =
        some (SqliteTx.run ops).savepoints) := by
  refine ⟨?_, ?_, ?_⟩
  · intro s hwf
    refine ⟨?_, ?_, ?_, ?_⟩
    · intro hin
      refine ⟨by simp [SqliteTx.start, hin], fun hc => ?_⟩
      exact absurd (hwf _ hc) (lt_irrefl _)
    · intro hin
      simp [SqliteTx.start, hin]
    · intro top rest hsp
      constructor
      · simp [SqliteTx.commit, hsp]
      · simp [SqliteTx.rollback, hsp]
    · intro hsp
      constructor
      · simp [SqliteTx.commit, hsp]
      · simp [SqliteTx.rollback, hsp]
  · intro ops
    exact foldl_WF ops SqliteTx.init (fun n hn => absurd hn (List.not_mem_nil n))
  · intro ops
    exact foldl_stackCheck ops SqliteTx.init rfl

theorem sqlite_tx_spec_witness :
    SqliteTx.start ⟨true, [5], 7, []⟩ =
      ⟨true, [7, 5], 8, [SqliteTx.Cmd.savepoint 7]⟩ ∧ (7 : Nat) ∉ [5] :=
  (sqlite_tx_spec.1 ⟨true, [5], 7, []⟩
    (fun n hn => by fin_cases hn; decide)).1 rfl
